import Mathlib

/-!
Verification of the daily-report event-aggregation engine of the
`bon-credit-daily-report` repository (`amplitude_client.py`).

The engine is `AmplitudeClient.process_events`: a single pass over a list of
decoded event records that resolves a canonical user key per event, maintains
per-user state (milestone flags, counters, screen list, session windows),
unique-user buckets per action kind, raw per-type tallies, and finally
assembles a report with safe percentage strings and a new-signup cohort list.

This file shallowly embeds that engine: Python dicts become association lists
(preserving insertion order, as Python dicts do), sets become `Finset`,
datetimes become rationals via a calendar linearization, and floats become
exact rationals with Python's round-half-to-even rounding.  The taxonomy
event-type strings are the environment defaults hard-coded in `__init__`.
-/

/-- A JSON field of an event record as seen through Python `dict.get`:
the key may be missing, explicitly `null`, or hold a string value. -/
inductive OptField
  | absent
  | null
  | str (s : String)
  deriving DecidableEq, Repr

/-- The canonical user key.  In the source, `uid` is either a Python string or
Python `None` (possible when `device_id` is present but null); `none` models
Python `None`. -/
abbrev Key := Option String

/-- An event record as described by the data model: `user_id`, `device_id`,
`session_id` optional strings (possibly null), `event_type` a string (modelled
with absent/null tolerated, as `event.get("event_type", "")` does),
`event_time` a string, and `event_properties` an optional mapping of which the
engine reads only the screen-name key (the inner `OptField` is that key's
state). -/
structure Event where
  user_id : OptField
  device_id : OptField
  event_type : OptField
  session_id : OptField
  event_time : String
  event_properties : Option OptField
  deriving DecidableEq, Repr

/-- `event.get(k)` with no default: both a missing key and an explicit null
come back as Python `None`. -/
def pyGet (f : OptField) : Option String :=
  match f with
  | OptField.absent => none
  | OptField.null => none
  | OptField.str s => some s

/-- `et = event.get("event_type", "")`: missing key defaults to `""`,
an explicit null stays Python `None`. -/
def etv (e : Event) : Option String :=
  match e.event_type with
  | OptField.absent => some ""
  | OptField.null => none
  | OptField.str s => some s

/-- The truthy session id used by `if sid and t:` — `event.get("session_id")`
when it is a non-empty string. -/
def sidVal (e : Event) : Option String :=
  match pyGet e.session_id with
  | some s => if s = "" then none else some s
  | none => none

/-- The truthy screen name computed by
`event.get("event_properties", {}).get(screen_property) or
 event.get("event_properties", {}).get("screen_name", "")`
with the default configuration, where both lookups read the same key.
`none` models a falsy result (no mapping, missing key, null, or `""`). -/
def screenVal (e : Event) : Option String :=
  match e.event_properties with
  | none => none
  | some OptField.absent => none
  | some OptField.null => none
  | some (OptField.str s) => if s = "" then none else some s

/-- `event.get("device_id", "anonymous")`: missing key yields the sentinel,
an explicit null yields Python `None`, and a string stays itself. -/
def devKey (e : Event) : Key :=
  match e.device_id with
  | OptField.absent => some "anonymous"
  | OptField.null => none
  | OptField.str s => some s

/-- `uid = event.get("user_id") or event.get("device_id", "anonymous")` —
the truthiness test of Python `or`: a missing/null/empty `user_id` falls
through to the `device_id` lookup. -/
def canonicalKey (e : Event) : Key :=
  match pyGet e.user_id with
  | some s => if s = "" then devKey e else some s
  | none => devKey e

/-- Written from the spec's words (for the refinement claim C2): "`user_id` if
present and non-empty, else `device_id` if present, else the sentinel
`"anonymous"`" — to be compared with `canonicalKey`, which is translated from
the source expression. -/
def specKey (e : Event) : Key :=
  match e.user_id with
  | OptField.str s => if s ≠ "" then some s else devKey e
  | _ => devKey e

/-! ### Taxonomy event-type constants (environment defaults from `__init__`) -/

def cInstall : String := "[Amplitude] Application Installed"
def cSignupStarted : String := "sign_up_started_event"
def cSignupCompleted : String := "sign_up_completed_event"
def cSignupFailed : String := "sign_up_failed"
def cOnboardingComplete : String := "onboarding_complete"
def cOnboardingDropoff : String := "onboarding_screen_drop_off"
def cCardInitiate : String := "add_card_initiate"
def cCardSuccess : String := "add_card_successful"
def cCardFailed : String := "add_card_unsuccessful"
def cBankInitiate : String := "add_bank_initiate"
def cBankSuccess : String := "add_bank_successful"
def cBankFailed : String := "add_bank_unsuccessful"
def cAutopaySetup : String := "autopay_setup_successful"
def cAutopayEnabled : String := "autopay_enabled"
def cIncomeAdded : String := "add_income_successful"
def cBillPayInitiated : String := "one_time_bill_payment_initiated"
def cBillPaySuccess : String := "one_time_bill_payment_success"
def cBillPayFailed : String := "one_time_bill_payment_failed"
def cPayBillSuccess : String := "pay_bill_success"
def cPayBillInitiated : String := "pay_bill_initiated"
def cPaymentFailed : String := "payment_failed"
def cScreenEvent : String := "common_screen_view_tracker"
def cCredgptStarted : String := "credgpt_chat_started"
def cCredgptEnded : String := "credgpt_chat_ended"
def cSpinwheelStarted : String := "spinwheel_started"
def cSpinwheelCompleted : String := "spinwheel_completed"
def cRewardSuccess : String := "slot_reward_redeem_successful"
def cNotifClick : String := "notification_click"
def cChurn : String := "delete_membership"
def cFraudBlocked : String := "device_integrity_blocked"
def cInfluencerReferral : String := "influencer_referral"
def cPayerVerified : String := "payer_verified"
def cSelectDebts : String := "select_debts"
def cExtraPaymentSet : String := "extra_payment_set"

/-! ### `_parse_time`: the two accepted formats
`"%Y-%m-%d %H:%M:%S.%f"` and `"%Y-%m-%d %H:%M:%S"`, any other string yields
`None`.  A parsed datetime is linearized to rational seconds on a proleptic
Gregorian axis so that subtraction matches `timedelta.total_seconds()`. -/

/-- Split a character list on a separator character (every occurrence). -/
def splitOnChar (c : Char) : List Char → List (List Char)
  | [] => [[]]
  | x :: xs =>
    let r := splitOnChar c xs
    if x = c then [] :: r
    else
      match r with
      | h :: t => (x :: h) :: t
      | [] => [[x]]

/-- Decimal value of a digit list. -/
def digitsVal (l : List Char) : ℕ :=
  l.foldl (fun a ch => a * 10 + (ch.toNat - 48)) 0

/-- A numeric field of at most `maxLen` digits whose value lies in
`[lo, hi]`; anything else fails like `strptime` does. -/
def numIn (l : List Char) (lo hi maxLen : ℕ) : Option ℕ :=
  if l.length = 0 ∨ maxLen < l.length ∨ ¬ l.all Char.isDigit then none
  else
    let n := digitsVal l
    if lo ≤ n ∧ n ≤ hi then some n else none

def isLeap (y : ℕ) : Bool :=
  (y % 4 = 0 && y % 100 ≠ 0) || y % 400 = 0

def daysInMonth (y m : ℕ) : ℕ :=
  if m = 2 then (if isLeap y then 29 else 28)
  else if m = 4 ∨ m = 6 ∨ m = 9 ∨ m = 11 then 30
  else 31

def daysBeforeMonth (y m : ℕ) : ℕ :=
  (List.range (m - 1)).foldl (fun a i => a + daysInMonth y (i + 1)) 0

/-- Days since 0001-01-01 of a Gregorian date. -/
def epochDays (y m d : ℕ) : ℕ :=
  365 * (y - 1) + (y - 1) / 4 - (y - 1) / 100 + (y - 1) / 400
    + daysBeforeMonth y m + (d - 1)

/-- The rational-seconds value of a parsed datetime. -/
def timeVal (y m d h mi s : ℕ) (frac : ℚ) : ℚ :=
  ((((epochDays y m d * 24 + h) * 60 + mi) * 60 + s : ℕ) : ℚ) + frac

/-- `AmplitudeClient._parse_time`: accept exactly
`YYYY-MM-DD HH:MM:SS` with an optional `.f` fraction of one to six digits,
with calendar-valid fields; every other string gives `none`. -/
def parseTime (ts : String) : Option ℚ :=
  match splitOnChar ' ' ts.data with
  | [dpart, tpart] =>
    match splitOnChar '-' dpart, splitOnChar ':' tpart with
    | [ys, ms, ds], [hs, mins, ss0] =>
      let secFrac : Option (List Char × Option (List Char)) :=
        match splitOnChar '.' ss0 with
        | [a] => some (a, none)
        | [a, f] => some (a, some f)
        | _ => none
      match secFrac with
      | none => none
      | some (ss, fr) =>
        match numIn ys 1 9999 4, numIn ms 1 12 2, numIn hs 0 23 2,
              numIn mins 0 59 2, numIn ss 0 59 2 with
        | some y, some m, some h, some mi, some s =>
          match numIn ds 1 (daysInMonth y m) 2 with
          | some d =>
            match fr with
            | none => some (timeVal y m d h mi s 0)
            | some f =>
              if 1 ≤ f.length ∧ f.length ≤ 6 ∧ f.all Char.isDigit then
                some (timeVal y m d h mi s ((digitsVal f : ℚ) / (10 : ℚ) ^ f.length))
              else none
          | none => none
        | _, _, _, _, _ => none
    | _, _ => none
  | _ => none

/-! ### Rounding and the safe percentage helper -/

/-- Python `round` to an integer: round half to even. -/
def rhe (q : ℚ) : ℤ :=
  let f := ⌊q⌋
  if q - f < 1 / 2 then f
  else if (1 : ℚ) / 2 < q - f then f + 1
  else if f % 2 = 0 then f else f + 1

/-- Python `round(x, 1)`. -/
def round1 (q : ℚ) : ℚ :=
  ((rhe (q * 10) : ℤ) : ℚ) / 10

/-- The local helper `pct` of `process_events`:
`f"{round(num / den * 100)}%" if den > 0 else "—"`. -/
def pct (num den : ℕ) : String :=
  if 0 < den then toString (rhe ((num : ℚ) / (den : ℚ) * 100)) ++ "%" else "—"

/-! ### Per-user state -/

/-- A session window `{"start": t, "end": t}` (the source's `end` field is
named `stop` here because `end` is a Lean keyword). -/
structure Win where
  start : ℚ
  stop : ℚ
  deriving DecidableEq, Repr

/-- `if t < win[sid]["start"]: ... ; if t > win[sid]["end"]: ...`. -/
def widen (w : Win) (t : ℚ) : Win :=
  { start := if t < w.start then t else w.start,
    stop := if w.stop < t then t else w.stop }

/-- One update of `u["session_windows"]`: create `{start: t, end: t}` for a new
session id, else widen the existing window.  The association list keeps the
Python dict's insertion order. -/
def addWin (ws : List (String × Win)) (sid : String) (t : ℚ) : List (String × Win) :=
  if ws.any (fun p => decide (p.1 = sid)) then
    ws.map (fun p => if p.1 = sid then (p.1, widen p.2 t) else p)
  else ws ++ [(sid, ⟨t, t⟩)]

/-- Dict lookup on the windows association list. -/
def lookupW (ws : List (String × Win)) (sid : String) : Option Win :=
  (ws.find? (fun p => decide (p.1 = sid))).map (fun p => p.2)

/-- The per-user record of the `users` defaultdict (the redundant `user_id`
field, only ever set to the dict key itself, is represented by the key). -/
structure UserState where
  signup_started : Bool
  signed_up : Bool
  signup_failed : Bool
  onboarding_complete : Bool
  card_linked : Bool
  card_failed : Bool
  bank_linked : Bool
  bank_failed : Bool
  autopay_setup : Bool
  income_added : Bool
  churned : Bool
  fraud_blocked : Bool
  used_credgpt : Bool
  used_spinwheel : Bool
  redeemed_reward : Bool
  cards_count : ℕ
  banks_count : ℕ
  bill_payments_made : ℕ
  screens : List String
  session_ids : Finset String
  session_windows : List (String × Win)
  event_count : ℕ
  deriving DecidableEq

/-- The defaultdict default factory. -/
def defaultUser : UserState :=
  { signup_started := false, signed_up := false, signup_failed := false,
    onboarding_complete := false, card_linked := false, card_failed := false,
    bank_linked := false, bank_failed := false, autopay_setup := false,
    income_added := false, churned := false, fraud_blocked := false,
    used_credgpt := false, used_spinwheel := false, redeemed_reward := false,
    cards_count := 0, banks_count := 0, bill_payments_made := 0,
    screens := [], session_ids := ∅, session_windows := [], event_count := 0 }

/-! ### Buckets -/

/-- The keys of the `buckets` dict of unique-user sets. -/
inductive Bucket
  | installs | signup_started | signup_completed | signup_failed
  | onboarding_complete | onboarding_dropoff
  | card_initiated | card_success | card_failed
  | bank_initiated | bank_success | bank_failed
  | autopay_setup | income_added
  | bill_pay_initiated | bill_pay_success | bill_pay_failed
  | credgpt_users | spinwheel_users | reward_success | notif_clicks
  | churned | fraud_blocked
  | influencer_referral | payer_verified | select_debts | extra_payment_set
  | all_active
  deriving DecidableEq, Repr

/-- `buckets[k].add(uid)`. -/
def updB (b : Bucket → Finset Key) (k : Bucket) (uid : Key) : Bucket → Finset Key :=
  fun x => if x = k then insert uid (b x) else b x

/-! ### The classification chain -/

/-- Which `elif` branch of the chain an event type selects (the chain takes at
most one branch; `nomatch` is falling off the end). -/
inductive Branch
  | install | signupStart | signupDone | signupFail | onbDone | onbDrop
  | cardInit | cardOk | cardBad | bankInit | bankOk | bankBad
  | autopay | income
  | billInit | billOk | billBad
  | credgpt | spin | rewardOk | notif
  | churn | fraud
  | influencer | payer | selectDebts | extraPay
  | nomatch
  deriving DecidableEq, Repr

/-- The `if et == ... elif et in (...) ...` chain, in source order. -/
def classify (v : Option String) : Branch :=
  if v = some cInstall then Branch.install
  else if v = some cSignupStarted then Branch.signupStart
  else if v = some cSignupCompleted then Branch.signupDone
  else if v = some cSignupFailed then Branch.signupFail
  else if v = some cOnboardingComplete then Branch.onbDone
  else if v = some cOnboardingDropoff then Branch.onbDrop
  else if v = some cCardInitiate then Branch.cardInit
  else if v = some cCardSuccess then Branch.cardOk
  else if v = some cCardFailed then Branch.cardBad
  else if v = some cBankInitiate then Branch.bankInit
  else if v = some cBankSuccess then Branch.bankOk
  else if v = some cBankFailed then Branch.bankBad
  else if v = some cAutopaySetup ∨ v = some cAutopayEnabled then Branch.autopay
  else if v = some cIncomeAdded then Branch.income
  else if v = some cBillPayInitiated ∨ v = some cPayBillInitiated then Branch.billInit
  else if v = some cBillPaySuccess ∨ v = some cPayBillSuccess then Branch.billOk
  else if v = some cBillPayFailed ∨ v = some cPaymentFailed then Branch.billBad
  else if v = some cCredgptStarted ∨ v = some cCredgptEnded then Branch.credgpt
  else if v = some cSpinwheelStarted ∨ v = some cSpinwheelCompleted then Branch.spin
  else if v = some cRewardSuccess then Branch.rewardOk
  else if v = some cNotifClick then Branch.notif
  else if v = some cChurn then Branch.churn
  else if v = some cFraudBlocked then Branch.fraud
  else if v = some cInfluencerReferral then Branch.influencer
  else if v = some cPayerVerified then Branch.payer
  else if v = some cSelectDebts then Branch.selectDebts
  else if v = some cExtraPaymentSet then Branch.extraPay
  else Branch.nomatch

/-- The body of the selected branch: flag/counter mutations on the user and the
bucket `add`. -/
def applyBranch (uid : Key) (br : Branch) (u : UserState) (b : Bucket → Finset Key) :
    UserState × (Bucket → Finset Key) :=
  match br with
  | Branch.install => (u, updB b Bucket.installs uid)
  | Branch.signupStart => ({ u with signup_started := true }, updB b Bucket.signup_started uid)
  | Branch.signupDone => ({ u with signed_up := true }, updB b Bucket.signup_completed uid)
  | Branch.signupFail => ({ u with signup_failed := true }, updB b Bucket.signup_failed uid)
  | Branch.onbDone => ({ u with onboarding_complete := true }, updB b Bucket.onboarding_complete uid)
  | Branch.onbDrop => (u, updB b Bucket.onboarding_dropoff uid)
  | Branch.cardInit => (u, updB b Bucket.card_initiated uid)
  | Branch.cardOk => ({ u with card_linked := true, cards_count := u.cards_count + 1 },
      updB b Bucket.card_success uid)
  | Branch.cardBad => ({ u with card_failed := true }, updB b Bucket.card_failed uid)
  | Branch.bankInit => (u, updB b Bucket.bank_initiated uid)
  | Branch.bankOk => ({ u with bank_linked := true, banks_count := u.banks_count + 1 },
      updB b Bucket.bank_success uid)
  | Branch.bankBad => ({ u with bank_failed := true }, updB b Bucket.bank_failed uid)
  | Branch.autopay => ({ u with autopay_setup := true }, updB b Bucket.autopay_setup uid)
  | Branch.income => ({ u with income_added := true }, updB b Bucket.income_added uid)
  | Branch.billInit => (u, updB b Bucket.bill_pay_initiated uid)
  | Branch.billOk => ({ u with bill_payments_made := u.bill_payments_made + 1 },
      updB b Bucket.bill_pay_success uid)
  | Branch.billBad => (u, updB b Bucket.bill_pay_failed uid)
  | Branch.credgpt => ({ u with used_credgpt := true }, updB b Bucket.credgpt_users uid)
  | Branch.spin => ({ u with used_spinwheel := true }, updB b Bucket.spinwheel_users uid)
  | Branch.rewardOk => ({ u with redeemed_reward := true }, updB b Bucket.reward_success uid)
  | Branch.notif => (u, updB b Bucket.notif_clicks uid)
  | Branch.churn => ({ u with churned := true }, updB b Bucket.churned uid)
  | Branch.fraud => ({ u with fraud_blocked := true }, updB b Bucket.fraud_blocked uid)
  | Branch.influencer => (u, updB b Bucket.influencer_referral uid)
  | Branch.payer => (u, updB b Bucket.payer_verified uid)
  | Branch.selectDebts => (u, updB b Bucket.select_debts uid)
  | Branch.extraPay => (u, updB b Bucket.extra_payment_set uid)
  | Branch.nomatch => (u, b)

/-- Which bucket a branch adds the user to. -/
def brHits (br : Branch) (bk : Bucket) : Bool :=
  match br, bk with
  | Branch.install, Bucket.installs => true
  | Branch.signupStart, Bucket.signup_started => true
  | Branch.signupDone, Bucket.signup_completed => true
  | Branch.signupFail, Bucket.signup_failed => true
  | Branch.onbDone, Bucket.onboarding_complete => true
  | Branch.onbDrop, Bucket.onboarding_dropoff => true
  | Branch.cardInit, Bucket.card_initiated => true
  | Branch.cardOk, Bucket.card_success => true
  | Branch.cardBad, Bucket.card_failed => true
  | Branch.bankInit, Bucket.bank_initiated => true
  | Branch.bankOk, Bucket.bank_success => true
  | Branch.bankBad, Bucket.bank_failed => true
  | Branch.autopay, Bucket.autopay_setup => true
  | Branch.income, Bucket.income_added => true
  | Branch.billInit, Bucket.bill_pay_initiated => true
  | Branch.billOk, Bucket.bill_pay_success => true
  | Branch.billBad, Bucket.bill_pay_failed => true
  | Branch.credgpt, Bucket.credgpt_users => true
  | Branch.spin, Bucket.spinwheel_users => true
  | Branch.rewardOk, Bucket.reward_success => true
  | Branch.notif, Bucket.notif_clicks => true
  | Branch.churn, Bucket.churned => true
  | Branch.fraud, Bucket.fraud_blocked => true
  | Branch.influencer, Bucket.influencer_referral => true
  | Branch.payer, Bucket.payer_verified => true
  | Branch.selectDebts, Bucket.select_debts => true
  | Branch.extraPay, Bucket.extra_payment_set => true
  | _, _ => false

/-- Whether processing event `e` adds its user key to bucket `bk`
(`all_active` on every event, otherwise per the classification chain). -/
def hits (bk : Bucket) (e : Event) : Bool :=
  decide (bk = Bucket.all_active) || brHits (classify (etv e)) bk

/-! ### Flag and counter views of the user state -/

/-- The boolean milestone flags of a user record. -/
inductive UFlag
  | signup_started | signed_up | signup_failed | onboarding_complete
  | card_linked | card_failed | bank_linked | bank_failed
  | autopay_setup | income_added | churned | fraud_blocked
  | used_credgpt | used_spinwheel | redeemed_reward
  deriving DecidableEq, Repr

def uflag (f : UFlag) (u : UserState) : Bool :=
  match f with
  | UFlag.signup_started => u.signup_started
  | UFlag.signed_up => u.signed_up
  | UFlag.signup_failed => u.signup_failed
  | UFlag.onboarding_complete => u.onboarding_complete
  | UFlag.card_linked => u.card_linked
  | UFlag.card_failed => u.card_failed
  | UFlag.bank_linked => u.bank_linked
  | UFlag.bank_failed => u.bank_failed
  | UFlag.autopay_setup => u.autopay_setup
  | UFlag.income_added => u.income_added
  | UFlag.churned => u.churned
  | UFlag.fraud_blocked => u.fraud_blocked
  | UFlag.used_credgpt => u.used_credgpt
  | UFlag.used_spinwheel => u.used_spinwheel
  | UFlag.redeemed_reward => u.redeemed_reward

/-- Which flag a branch sets. -/
def fHit (br : Branch) (f : UFlag) : Bool :=
  match br, f with
  | Branch.signupStart, UFlag.signup_started => true
  | Branch.signupDone, UFlag.signed_up => true
  | Branch.signupFail, UFlag.signup_failed => true
  | Branch.onbDone, UFlag.onboarding_complete => true
  | Branch.cardOk, UFlag.card_linked => true
  | Branch.cardBad, UFlag.card_failed => true
  | Branch.bankOk, UFlag.bank_linked => true
  | Branch.bankBad, UFlag.bank_failed => true
  | Branch.autopay, UFlag.autopay_setup => true
  | Branch.income, UFlag.income_added => true
  | Branch.churn, UFlag.churned => true
  | Branch.fraud, UFlag.fraud_blocked => true
  | Branch.credgpt, UFlag.used_credgpt => true
  | Branch.spin, UFlag.used_spinwheel => true
  | Branch.rewardOk, UFlag.redeemed_reward => true
  | _, _ => false

/-- Whether processing event `e` sets flag `f` on its user. -/
def flagHit (f : UFlag) (e : Event) : Bool :=
  fHit (classify (etv e)) f

/-- The numeric per-user counters. -/
inductive UCnt
  | cards_count | banks_count | bill_payments_made | event_count
  deriving DecidableEq, Repr

def ucnt (c : UCnt) (u : UserState) : ℕ :=
  match c with
  | UCnt.cards_count => u.cards_count
  | UCnt.banks_count => u.banks_count
  | UCnt.bill_payments_made => u.bill_payments_made
  | UCnt.event_count => u.event_count

/-- Which counter a branch increments. -/
def cHit (br : Branch) (c : UCnt) : Bool :=
  match br, c with
  | Branch.cardOk, UCnt.cards_count => true
  | Branch.bankOk, UCnt.banks_count => true
  | Branch.billOk, UCnt.bill_payments_made => true
  | _, _ => false

/-- Whether processing event `e` increments counter `c` for its user
(`event_count` on every event). -/
def cntHit (c : UCnt) (e : Event) : Bool :=
  match c with
  | UCnt.event_count => true
  | _ => cHit (classify (etv e)) c

/-! ### The users table and the aggregation step -/

/-- `users[uid]` read (defaultdict: missing key reads as the default). -/
def getU (us : List (Key × UserState)) (k : Key) : UserState :=
  match us.find? (fun p => decide (p.1 = k)) with
  | some p => p.2
  | none => defaultUser

/-- Store back the mutated record, appending a fresh entry for a new key
(defaultdict creates the entry at first access, preserving insertion order). -/
def setU (us : List (Key × UserState)) (k : Key) (v : UserState) :
    List (Key × UserState) :=
  if us.any (fun p => decide (p.1 = k)) then
    us.map (fun p => if p.1 = k then (k, v) else p)
  else us ++ [(k, v)]

/-- The whole mutable state of the pass. -/
structure St where
  buckets : Bucket → Finset Key
  rawCounts : Option String → ℕ
  users : List (Key × UserState)

def initSt : St :=
  { buckets := fun _ => ∅, rawCounts := fun _ => 0, users := [] }

/-- `if sid and t:` — record the session id and widen its window. -/
def sessUpd (e : Event) (u : UserState) : UserState :=
  match sidVal e, parseTime e.event_time with
  | some sid, some t =>
    { u with session_ids := insert sid u.session_ids,
             session_windows := addWin u.session_windows sid t }
  | _, _ => u

/-- The screen-tracking block: first-seen screens appended in input order. -/
def scrUpd (e : Event) (u : UserState) : UserState :=
  if etv e = some cScreenEvent then
    match screenVal e with
    | some sc => if sc ∈ u.screens then u else { u with screens := u.screens ++ [sc] }
    | none => u
  else u

/-- `u["event_count"] += 1`. -/
def bump (u : UserState) : UserState :=
  { u with event_count := u.event_count + 1 }

/-- The user record after one loop iteration: count the event, track the
session, track the screen, apply the classified branch. -/
def stepUser (s : St) (e : Event) : UserState :=
  (applyBranch (canonicalKey e) (classify (etv e))
    (scrUpd e (sessUpd e (bump (getU s.users (canonicalKey e)))))
    (updB s.buckets Bucket.all_active (canonicalKey e))).1

/-- The buckets after one loop iteration: `all_active` then the classified
branch's bucket. -/
def stepBuckets (s : St) (e : Event) : Bucket → Finset Key :=
  (applyBranch (canonicalKey e) (classify (etv e))
    (scrUpd e (sessUpd e (bump (getU s.users (canonicalKey e)))))
    (updB s.buckets Bucket.all_active (canonicalKey e))).2

/-- One iteration of the `for event in events:` loop. -/
def step (s : St) (e : Event) : St :=
  { buckets := stepBuckets s e,
    rawCounts := fun x => if x = etv e then s.rawCounts x + 1 else s.rawCounts x,
    users := setU s.users (canonicalKey e) (stepUser s e) }

/-- Fold the loop from an arbitrary state. -/
def foldSt (s : St) (es : List Event) : St :=
  es.foldl step s

/-- The state after the full pass. -/
def procSt (es : List Event) : St :=
  foldSt initSt es

/-! ### Report assembly -/

/-- `_calc_session_time`: total window span in seconds, divided by 60, rounded
to one decimal. -/
def calcSessionTime (ws : List (String × Win)) : ℚ :=
  round1 ((ws.map (fun p => p.2.stop - p.2.start)).sum / 60)

/-- `_avg_session`: mean per-active-user time-spent, `0.0` when `dau == 0`. -/
def avgSession (us : List (Key × UserState)) (dau : ℕ) : ℚ :=
  if dau = 0 then 0
  else round1 ((us.map (fun p => calcSessionTime p.2.session_windows)).sum / (dau : ℚ))

/-- A record of the `new_signups` cohort list. -/
structure CohortRec where
  user_id : Key
  card_linked : Bool
  card_failed : Bool
  bank_linked : Bool
  bank_failed : Bool
  onboarding_complete : Bool
  autopay_setup : Bool
  used_credgpt : Bool
  cards_count : ℕ
  banks_count : ℕ
  bill_payments_made : ℕ
  screens : List String
  time_spent_mins : ℚ
  session_count : ℕ
  event_count : ℕ
  deriving DecidableEq, Repr

/-- The cohort projection of a user record (screens capped at 15). -/
def mkRec (k : Key) (u : UserState) : CohortRec :=
  { user_id := k, card_linked := u.card_linked, card_failed := u.card_failed,
    bank_linked := u.bank_linked, bank_failed := u.bank_failed,
    onboarding_complete := u.onboarding_complete, autopay_setup := u.autopay_setup,
    used_credgpt := u.used_credgpt, cards_count := u.cards_count,
    banks_count := u.banks_count, bill_payments_made := u.bill_payments_made,
    screens := u.screens.take 15,
    time_spent_mins := calcSessionTime u.session_windows,
    session_count := u.session_ids.card, event_count := u.event_count }

/-- The returned report dict (fixed key set). -/
structure Report where
  installs : ℕ
  signup_started : ℕ
  signup_completed : ℕ
  signup_failed : ℕ
  onboarding_complete : ℕ
  onboarding_dropoff : ℕ
  install_to_signup_rate : String
  started_to_completed_rate : String
  signup_to_onboarding_rate : String
  card_initiated : ℕ
  card_success : ℕ
  card_failed : ℕ
  card_success_rate : String
  bank_initiated : ℕ
  bank_success : ℕ
  bank_failed : ℕ
  bank_success_rate : String
  autopay_setups : ℕ
  income_added : ℕ
  payer_verified : ℕ
  select_debts : ℕ
  extra_payment_set : ℕ
  bill_pay_initiated : ℕ
  bill_pay_success : ℕ
  bill_pay_failed : ℕ
  bill_pay_success_rate : String
  dau : ℕ
  avg_session_mins : ℚ
  credgpt_users : ℕ
  spinwheel_users : ℕ
  reward_redeemed : ℕ
  notif_clicks : ℕ
  churned : ℕ
  fraud_blocked : ℕ
  influencer_referrals : ℕ
  new_signups : List CohortRec
  new_signup_count : ℕ
  deriving DecidableEq, Repr

/-- The tail of `process_events`: set sizes, rates, average session,
and the cohort list in users-dict iteration order. -/
def buildReport (s : St) : Report :=
  let c := fun bk => (s.buckets bk).card
  let dau := c Bucket.all_active
  { installs := c Bucket.installs,
    signup_started := c Bucket.signup_started,
    signup_completed := c Bucket.signup_completed,
    signup_failed := c Bucket.signup_failed,
    onboarding_complete := c Bucket.onboarding_complete,
    onboarding_dropoff := c Bucket.onboarding_dropoff,
    install_to_signup_rate := pct (c Bucket.signup_completed) (c Bucket.installs),
    started_to_completed_rate := pct (c Bucket.signup_completed) (c Bucket.signup_started),
    signup_to_onboarding_rate := pct (c Bucket.onboarding_complete) (c Bucket.signup_completed),
    card_initiated := c Bucket.card_initiated,
    card_success := c Bucket.card_success,
    card_failed := c Bucket.card_failed,
    card_success_rate := pct (c Bucket.card_success) (c Bucket.card_initiated),
    bank_initiated := c Bucket.bank_initiated,
    bank_success := c Bucket.bank_success,
    bank_failed := c Bucket.bank_failed,
    bank_success_rate := pct (c Bucket.bank_success) (c Bucket.bank_initiated),
    autopay_setups := c Bucket.autopay_setup,
    income_added := c Bucket.income_added,
    payer_verified := c Bucket.payer_verified,
    select_debts := c Bucket.select_debts,
    extra_payment_set := c Bucket.extra_payment_set,
    bill_pay_initiated := c Bucket.bill_pay_initiated,
    bill_pay_success := c Bucket.bill_pay_success,
    bill_pay_failed := c Bucket.bill_pay_failed,
    bill_pay_success_rate := pct (c Bucket.bill_pay_success) (c Bucket.bill_pay_initiated),
    dau := dau,
    avg_session_mins := avgSession s.users dau,
    credgpt_users := c Bucket.credgpt_users,
    spinwheel_users := c Bucket.spinwheel_users,
    reward_redeemed := c Bucket.reward_success,
    notif_clicks := c Bucket.notif_clicks,
    churned := c Bucket.churned,
    fraud_blocked := c Bucket.fraud_blocked,
    influencer_referrals := c Bucket.influencer_referral,
    new_signups := s.users.filterMap
      (fun p => if p.2.signed_up then some (mkRec p.1 p.2) else none),
    new_signup_count := c Bucket.signup_completed }

/-- `AmplitudeClient.process_events`. -/
def processEvents (es : List Event) : Report :=
  buildReport (procSt es)

/-- The all-zero report for the empty batch: every count 0, every rate `"—"`,
`avg_session_mins` 0.0, empty cohort. -/
def reportZero : Report :=
  { installs := 0, signup_started := 0, signup_completed := 0, signup_failed := 0,
    onboarding_complete := 0, onboarding_dropoff := 0,
    install_to_signup_rate := "—", started_to_completed_rate := "—",
    signup_to_onboarding_rate := "—",
    card_initiated := 0, card_success := 0, card_failed := 0, card_success_rate := "—",
    bank_initiated := 0, bank_success := 0, bank_failed := 0, bank_success_rate := "—",
    autopay_setups := 0, income_added := 0, payer_verified := 0, select_debts := 0,
    extra_payment_set := 0,
    bill_pay_initiated := 0, bill_pay_success := 0, bill_pay_failed := 0,
    bill_pay_success_rate := "—",
    dau := 0, avg_session_mins := 0,
    credgpt_users := 0, spinwheel_users := 0, reward_redeemed := 0, notif_clicks := 0,
    churned := 0, fraud_blocked := 0, influencer_referrals := 0,
    new_signups := [], new_signup_count := 0 }

/-! ### The failure-instrumented engine (for the totality claim C9)
Division is the only genuinely partial primitive the engine's derivation phase
uses; it is modelled as `Except`, mirroring Python's `ZeroDivisionError`, and
every guard of the source must be shown to protect it. -/

def divE (a b : ℚ) : Except String ℚ :=
  if b = 0 then Except.error "ZeroDivisionError" else Except.ok (a / b)

def pctE (num den : ℕ) : Except String String :=
  if 0 < den then do
    let q ← divE (num : ℚ) (den : ℚ)
    Except.ok (toString (rhe (q * 100)) ++ "%")
  else Except.ok "—"

def calcSessionTimeE (ws : List (String × Win)) : Except String ℚ := do
  let q ← divE ((ws.map (fun p => p.2.stop - p.2.start)).sum) 60
  Except.ok (round1 q)

def avgSessionE (us : List (Key × UserState)) (dau : ℕ) : Except String ℚ :=
  if dau = 0 then Except.ok 0
  else do
    let ts ← us.mapM (fun p => calcSessionTimeE p.2.session_windows)
    let q ← divE ts.sum (dau : ℚ)
    Except.ok (round1 q)

def buildReportE (s : St) : Except String Report := do
  let c := fun bk => (s.buckets bk).card
  let dau := c Bucket.all_active
  let r1 ← pctE (c Bucket.signup_completed) (c Bucket.installs)
  let r2 ← pctE (c Bucket.signup_completed) (c Bucket.signup_started)
  let r3 ← pctE (c Bucket.onboarding_complete) (c Bucket.signup_completed)
  let r4 ← pctE (c Bucket.card_success) (c Bucket.card_initiated)
  let r5 ← pctE (c Bucket.bank_success) (c Bucket.bank_initiated)
  let r6 ← pctE (c Bucket.bill_pay_success) (c Bucket.bill_pay_initiated)
  let av ← avgSessionE s.users dau
  Except.ok {
    installs := c Bucket.installs,
    signup_started := c Bucket.signup_started,
    signup_completed := c Bucket.signup_completed,
    signup_failed := c Bucket.signup_failed,
    onboarding_complete := c Bucket.onboarding_complete,
    onboarding_dropoff := c Bucket.onboarding_dropoff,
    install_to_signup_rate := r1,
    started_to_completed_rate := r2,
    signup_to_onboarding_rate := r3,
    card_initiated := c Bucket.card_initiated,
    card_success := c Bucket.card_success,
    card_failed := c Bucket.card_failed,
    card_success_rate := r4,
    bank_initiated := c Bucket.bank_initiated,
    bank_success := c Bucket.bank_success,
    bank_failed := c Bucket.bank_failed,
    bank_success_rate := r5,
    autopay_setups := c Bucket.autopay_setup,
    income_added := c Bucket.income_added,
    payer_verified := c Bucket.payer_verified,
    select_debts := c Bucket.select_debts,
    extra_payment_set := c Bucket.extra_payment_set,
    bill_pay_initiated := c Bucket.bill_pay_initiated,
    bill_pay_success := c Bucket.bill_pay_success,
    bill_pay_failed := c Bucket.bill_pay_failed,
    bill_pay_success_rate := r6,
    dau := dau,
    avg_session_mins := av,
    credgpt_users := c Bucket.credgpt_users,
    spinwheel_users := c Bucket.spinwheel_users,
    reward_redeemed := c Bucket.reward_success,
    notif_clicks := c Bucket.notif_clicks,
    churned := c Bucket.churned,
    fraud_blocked := c Bucket.fraud_blocked,
    influencer_referrals := c Bucket.influencer_referral,
    new_signups := s.users.filterMap
      (fun p => if p.2.signed_up then some (mkRec p.1 p.2) else none),
    new_signup_count := c Bucket.signup_completed }

/-- `process_events` with every division instrumented. -/
def processEventsE (es : List Event) : Except String Report :=
  buildReportE (procSt es)

/-! ### Extensional views used by the characterization lemmas -/

/-- Append-if-new (Python's first-seen dedup of a list). -/
def addNew (acc : List String) (x : String) : List String :=
  if x ∈ acc then acc else acc ++ [x]

/-- Append-if-new on user keys. -/
def addNewK (acc : List Key) (k : Key) : List Key :=
  if k ∈ acc then acc else acc ++ [k]

/-- The screens of user `k` extracted from the input, in input order. -/
def scrList (es : List Event) (k : Key) : List String :=
  es.filterMap (fun e =>
    if canonicalKey e = k ∧ etv e = some cScreenEvent then screenVal e else none)

/-- The parsable timestamps of user `k`'s events in session `sid`, in input
order. -/
def sessTimesL (es : List Event) (k : Key) (sid : String) : List ℚ :=
  es.filterMap (fun e =>
    if canonicalKey e = k ∧ sidVal e = some sid then parseTime e.event_time else none)

/-- One window-accumulation step: first event creates the window, later events
widen it. -/
def widenO (w : Option Win) (t : ℚ) : Option Win :=
  match w with
  | none => some ⟨t, t⟩
  | some w => some (widen w t)

/-- The session window of `(k, sid)` in a state. -/
def winOf (s : St) (k : Key) (sid : String) : Option Win :=
  lookupW (getU s.users k).session_windows sid

/-- First-seen order of canonical user keys of an input list. -/
def keysOrder (es : List Event) : List Key :=
  es.foldl (fun acc e => addNewK acc (canonicalKey e)) []

/-- An ascending-by-key test on a cohort user-id sequence (`none` keys sort as
the empty string), the ordering the spec prescribes for the cohort list.
String order is lexicographic on the code points. -/
def keyStr (k : Key) : String :=
  k.getD ""

def charListLe : List Char → List Char → Bool
  | [], _ => true
  | _ :: _, [] => false
  | a :: as, b :: bs =>
    if a.toNat < b.toNat then true
    else if b.toNat < a.toNat then false
    else charListLe as bs

def keyLe (a b : Key) : Bool :=
  charListLe (keyStr a).data (keyStr b).data

def sortedByKey : List Key → Bool
  | a :: b :: rest => keyLe a b && sortedByKey (b :: rest)
  | _ => true

/-! ### Concrete inputs for counterexamples and witnesses -/

/-- An event with only a user id and an event type. -/
def evA (u et : String) : Event :=
  ⟨OptField.str u, OptField.absent, OptField.str et, OptField.absent, "", none⟩

/-- An event with user id, type, session id and timestamp. -/
def evT (u et sid tim : String) : Event :=
  ⟨OptField.str u, OptField.absent, OptField.str et, OptField.str sid, tim, none⟩

/-- A screen-view event with a screen name and timestamp. -/
def evS (u tim scr : String) : Event :=
  ⟨OptField.str u, OptField.absent, OptField.str cScreenEvent, OptField.absent, tim,
    some (OptField.str scr)⟩

/-- C1 counterexample input: user `"b"` signs up before user `"a"`. -/
def lC1 : List Event :=
  [evA "b" cSignupCompleted, evA "a" cSignupCompleted]

/-- C5 counterexample inputs: the same three events in two input orders; the
event times are carried on the events and identical in both lists. -/
def lC5 : List Event :=
  [evA "u1" cSignupCompleted,
   evS "u1" "2025-03-15 10:00:00" "a",
   evS "u1" "2025-03-15 10:01:00" "b"]

def lC5' : List Event :=
  [evA "u1" cSignupCompleted,
   evS "u1" "2025-03-15 10:01:00" "b",
   evS "u1" "2025-03-15 10:00:00" "a"]

/-- C10 input: session `s1` has a parsable timestamp, session `s2` does not. -/
def lC10 : List Event :=
  [evA "u1" cSignupCompleted,
   evT "u1" "x" "s1" "2025-03-15 10:00:00",
   evT "u1" "x" "s2" "not-a-timestamp"]

/-- C4 witness: a duplicated signup event. -/
def eC4 : Event := evA "u1" cSignupCompleted

def lC4 : List Event := [evA "u1" cSignupCompleted]

/-- C6 witness event: recognized type, session id present, bad timestamp. -/
def eC6 : Event := evT "u1" cSignupCompleted "s1" "not-a-timestamp"

/-- C7 witness events: two events of the same user session. -/
def eC7a : Event := evT "u1" "x" "s1" "2025-03-15 10:00:00"

def eC7b : Event := evT "u1" "x" "s1" "2025-03-15 10:02:30"

def eC10bad : Event := evT "u1" "x" "s2" "not-a-timestamp"

/-! # Lemma layer -/

/-! ## Branch-table lemmas -/

theorem applyBranch_buckets (uid : Key) (br : Branch) (u : UserState)
    (b : Bucket → Finset Key) (bk : Bucket) :
    (applyBranch uid br u b).2 bk =
      if brHits br bk then insert uid (b bk) else b bk := by
  cases br <;> cases bk <;> rfl

theorem applyBranch_flag (uid : Key) (br : Branch) (u : UserState)
    (b : Bucket → Finset Key) (f : UFlag) :
    uflag f (applyBranch uid br u b).1 = (uflag f u || fHit br f) := by
  cases br <;> cases f <;> simp [applyBranch, uflag, fHit]

theorem applyBranch_cnt (uid : Key) (br : Branch) (u : UserState)
    (b : Bucket → Finset Key) (c : UCnt) :
    ucnt c (applyBranch uid br u b).1 = ucnt c u + (if cHit br c then 1 else 0) := by
  cases br <;> cases c <;> simp [applyBranch, ucnt, cHit]

theorem applyBranch_screens (uid : Key) (br : Branch) (u : UserState)
    (b : Bucket → Finset Key) :
    (applyBranch uid br u b).1.screens = u.screens := by
  cases br <;> rfl

theorem applyBranch_sids (uid : Key) (br : Branch) (u : UserState)
    (b : Bucket → Finset Key) :
    (applyBranch uid br u b).1.session_ids = u.session_ids := by
  cases br <;> rfl

theorem applyBranch_wins (uid : Key) (br : Branch) (u : UserState)
    (b : Bucket → Finset Key) :
    (applyBranch uid br u b).1.session_windows = u.session_windows := by
  cases br <;> rfl

theorem brHits_all_active (br : Branch) : brHits br Bucket.all_active = false := by
  cases br <;> rfl

theorem cHit_event_count (br : Branch) : cHit br UCnt.event_count = false := by
  cases br <;> rfl

/-! ## The small per-record update functions leave unrelated fields alone -/

theorem bump_flag (u : UserState) (f : UFlag) : uflag f (bump u) = uflag f u := by
  cases f <;> rfl

theorem bump_cnt (u : UserState) (c : UCnt) :
    ucnt c (bump u) = ucnt c u + (if c = UCnt.event_count then 1 else 0) := by
  cases c <;> rfl

theorem bump_screens (u : UserState) : (bump u).screens = u.screens := rfl

theorem bump_sids (u : UserState) : (bump u).session_ids = u.session_ids := rfl

theorem bump_wins (u : UserState) : (bump u).session_windows = u.session_windows := rfl

theorem sessUpd_flag (e : Event) (u : UserState) (f : UFlag) :
    uflag f (sessUpd e u) = uflag f u := by
  unfold sessUpd; split <;> (cases f <;> rfl)

theorem sessUpd_cnt (e : Event) (u : UserState) (c : UCnt) :
    ucnt c (sessUpd e u) = ucnt c u := by
  unfold sessUpd; split <;> (cases c <;> rfl)

theorem sessUpd_screens (e : Event) (u : UserState) :
    (sessUpd e u).screens = u.screens := by
  unfold sessUpd; split <;> rfl

theorem scrUpd_flag (e : Event) (u : UserState) (f : UFlag) :
    uflag f (scrUpd e u) = uflag f u := by
  unfold scrUpd
  split
  · split
    · split <;> (cases f <;> rfl)
    · rfl
  · rfl

theorem scrUpd_cnt (e : Event) (u : UserState) (c : UCnt) :
    ucnt c (scrUpd e u) = ucnt c u := by
  unfold scrUpd
  split
  · split
    · split <;> (cases c <;> rfl)
    · rfl
  · rfl

theorem scrUpd_sids (e : Event) (u : UserState) :
    (scrUpd e u).session_ids = u.session_ids := by
  unfold scrUpd
  split
  · split
    · split <;> rfl
    · rfl
  · rfl

theorem scrUpd_wins (e : Event) (u : UserState) :
    (scrUpd e u).session_windows = u.session_windows := by
  unfold scrUpd
  split
  · split
    · split <;> rfl
    · rfl
  · rfl

/-! ## Association-list lemmas for the users table -/

theorem getU_cons (p : Key × UserState) (us : List (Key × UserState)) (k : Key) :
    getU (p :: us) k = if p.1 = k then p.2 else getU us k := by
  by_cases hp : p.1 = k <;> simp [getU, List.find?, hp]

theorem getU_map_set_ne (us : List (Key × UserState)) (k k' : Key) (v : UserState)
    (h : k' ≠ k) :
    getU (us.map (fun p => if p.1 = k then (k, v) else p)) k' = getU us k' := by
  induction us with
  | nil => rfl
  | cons p us ih =>
    by_cases hp : p.1 = k
    · simp only [List.map_cons, if_pos hp]
      rw [getU_cons, getU_cons]
      have h1 : ¬ ((k, v).1 = k') := fun hc => h hc.symm
      have h2 : ¬ (p.1 = k') := fun hc => h (hp.symm.trans hc).symm
      rw [if_neg h1, if_neg h2]
      exact ih
    · simp only [List.map_cons, if_neg hp]
      rw [getU_cons, getU_cons]
      by_cases hq : p.1 = k'
      · rw [if_pos hq, if_pos hq]
      · rw [if_neg hq, if_neg hq]
        exact ih

theorem getU_append_ne (us : List (Key × UserState)) (k k' : Key) (v : UserState)
    (h : k' ≠ k) :
    getU (us ++ [(k, v)]) k' = getU us k' := by
  induction us with
  | nil =>
    have h1 : ¬ ((k, v).1 = k') := fun hc => h hc.symm
    rw [List.nil_append, getU_cons, if_neg h1]
  | cons p us ih =>
    rw [List.cons_append, getU_cons, getU_cons]
    by_cases hq : p.1 = k'
    · rw [if_pos hq, if_pos hq]
    · rw [if_neg hq, if_neg hq]
      exact ih

theorem getU_setU_self (us : List (Key × UserState)) (k : Key) (v : UserState) :
    getU (setU us k v) k = v := by
  unfold setU
  split
  case isTrue h =>
    induction us with
    | nil => simp at h
    | cons p us ih =>
      by_cases hp : p.1 = k
      · simp only [List.map_cons, if_pos hp]
        rw [getU_cons, if_pos rfl]
      · have ht : us.any (fun p => decide (p.1 = k)) = true := by
          simpa [List.any_cons, hp] using h
        simp only [List.map_cons, if_neg hp]
        rw [getU_cons, if_neg hp]
        exact ih ht
  case isFalse h =>
    have h' : us.any (fun p => decide (p.1 = k)) = false :=
      Bool.eq_false_iff.mpr h
    clear h
    induction us with
    | nil => rw [List.nil_append, getU_cons, if_pos rfl]
    | cons p us ih =>
      have hp : ¬ p.1 = k := by
        intro hc
        simp [List.any_cons, hc] at h'
      have ht : us.any (fun p => decide (p.1 = k)) = false := by
        simpa [List.any_cons, hp] using h'
      rw [List.cons_append, getU_cons, if_neg hp]
      exact ih ht

theorem getU_setU_ne (us : List (Key × UserState)) (k k' : Key) (v : UserState)
    (h : k' ≠ k) :
    getU (setU us k v) k' = getU us k' := by
  unfold setU
  split
  case isTrue _ => exact getU_map_set_ne us k k' v h
  case isFalse _ => exact getU_append_ne us k k' v h

theorem setU_any_mem (us : List (Key × UserState)) (k : Key) :
    (us.any fun p => decide (p.1 = k)) = true ↔ k ∈ us.map Prod.fst := by
  rw [List.any_eq_true]
  constructor
  · rintro ⟨p, hp, hd⟩
    exact List.mem_map.mpr ⟨p, hp, of_decide_eq_true hd⟩
  · intro hm
    rcases List.mem_map.mp hm with ⟨p, hp, he⟩
    exact ⟨p, hp, decide_eq_true he⟩

theorem map_fst_replace (us : List (Key × UserState)) (k : Key) (v : UserState) :
    (us.map (fun p => if p.1 = k then (k, v) else p)).map Prod.fst = us.map Prod.fst := by
  induction us with
  | nil => rfl
  | cons p us ih =>
    by_cases hp : p.1 = k
    · simp [hp, ih]
    · simp [hp, ih]

theorem setU_map_fst (us : List (Key × UserState)) (k : Key) (v : UserState) :
    (setU us k v).map Prod.fst = addNewK (us.map Prod.fst) k := by
  unfold setU addNewK
  split
  case isTrue h =>
    rw [if_pos ((setU_any_mem us k).mp h)]
    exact map_fst_replace us k v
  case isFalse h =>
    rw [if_neg (fun hm => h ((setU_any_mem us k).mpr hm))]
    simp

/-! ## Step-level characterizations -/

theorem step_buckets (s : St) (e : Event) (bk : Bucket) :
    (step s e).buckets bk =
      if hits bk e then insert (canonicalKey e) (s.buckets bk) else s.buckets bk := by
  show stepBuckets s e bk = _
  unfold stepBuckets hits
  rw [applyBranch_buckets]
  by_cases hbk : bk = Bucket.all_active
  · subst hbk
    simp [brHits_all_active, updB]
  · simp only [updB, if_neg hbk, decide_eq_true_eq]
    have : ¬ (bk = Bucket.all_active) := hbk
    simp [this]

theorem getU_step_ne (s : St) (e : Event) (k : Key) (h : k ≠ canonicalKey e) :
    getU (step s e).users k = getU s.users k := by
  show getU (setU s.users (canonicalKey e) (stepUser s e)) k = getU s.users k
  exact getU_setU_ne _ _ _ _ h

theorem getU_step_self (s : St) (e : Event) :
    getU (step s e).users (canonicalKey e) = stepUser s e := by
  show getU (setU s.users (canonicalKey e) (stepUser s e)) (canonicalKey e) = _
  exact getU_setU_self _ _ _

theorem step_flag (s : St) (e : Event) (k : Key) (f : UFlag) :
    uflag f (getU (step s e).users k) =
      (uflag f (getU s.users k) || (decide (canonicalKey e = k) && flagHit f e)) := by
  by_cases hk : k = canonicalKey e
  · subst hk
    rw [getU_step_self]
    unfold stepUser flagHit
    rw [applyBranch_flag, scrUpd_flag, sessUpd_flag, bump_flag]
    simp
  · rw [getU_step_ne s e k hk]
    have : ¬ (canonicalKey e = k) := fun hc => hk hc.symm
    simp [this]

theorem step_cnt (s : St) (e : Event) (k : Key) (c : UCnt) :
    ucnt c (getU (step s e).users k) =
      ucnt c (getU s.users k) +
        (if decide (canonicalKey e = k) && cntHit c e then 1 else 0) := by
  by_cases hk : k = canonicalKey e
  · subst hk
    rw [getU_step_self]
    unfold stepUser
    rw [applyBranch_cnt, scrUpd_cnt, sessUpd_cnt, bump_cnt]
    cases c
    · simp [cntHit, Nat.add_assoc]
    · simp [cntHit, Nat.add_assoc]
    · simp [cntHit, Nat.add_assoc]
    · simp [cntHit, cHit_event_count]
  · rw [getU_step_ne s e k hk]
    have : ¬ (canonicalKey e = k) := fun hc => hk hc.symm
    simp [this]

theorem step_raw (s : St) (e : Event) (x : Option String) :
    (step s e).rawCounts x = s.rawCounts x + (if x = etv e then 1 else 0) := by
  show (if x = etv e then s.rawCounts x + 1 else s.rawCounts x) = _
  split <;> simp

theorem step_wins (s : St) (e : Event) (k : Key) :
    (getU (step s e).users k).session_windows =
      if k = canonicalKey e then
        (match sidVal e, parseTime e.event_time with
          | some sid, some t =>
              addWin (getU s.users k).session_windows sid t
          | _, _ => (getU s.users k).session_windows)
      else (getU s.users k).session_windows := by
  by_cases hk : k = canonicalKey e
  · subst hk
    rw [if_pos rfl, getU_step_self]
    unfold stepUser
    rw [applyBranch_wins, scrUpd_wins]
    unfold sessUpd
    rcases hs : sidVal e with _ | sid <;> rcases hp : parseTime e.event_time with _ | t <;>
      simp [bump_wins]
  · rw [if_neg hk, getU_step_ne s e k hk]

theorem step_sids (s : St) (e : Event) (k : Key) :
    (getU (step s e).users k).session_ids =
      if k = canonicalKey e then
        (match sidVal e, parseTime e.event_time with
          | some sid, some _ => insert sid (getU s.users k).session_ids
          | _, _ => (getU s.users k).session_ids)
      else (getU s.users k).session_ids := by
  by_cases hk : k = canonicalKey e
  · subst hk
    rw [if_pos rfl, getU_step_self]
    unfold stepUser
    rw [applyBranch_sids, scrUpd_sids]
    unfold sessUpd
    rcases hs : sidVal e with _ | sid <;> rcases hp : parseTime e.event_time with _ | t <;>
      simp [bump_sids]
  · rw [if_neg hk, getU_step_ne s e k hk]

theorem scrUpd_screens (e : Event) (u : UserState) :
    (scrUpd e u).screens =
      match (if etv e = some cScreenEvent then screenVal e else none) with
      | some sc => addNew u.screens sc
      | none => u.screens := by
  unfold scrUpd
  by_cases hscr : etv e = some cScreenEvent
  · simp only [if_pos hscr]
    rcases hv : screenVal e with _ | sc
    · rfl
    · simp only [addNew]
      by_cases hmem : sc ∈ u.screens
      · simp [hmem]
      · simp [hmem]
  · simp [if_neg hscr]

theorem step_screens (s : St) (e : Event) (k : Key) :
    (getU (step s e).users k).screens =
      match (if canonicalKey e = k ∧ etv e = some cScreenEvent then screenVal e else none) with
      | some sc => addNew (getU s.users k).screens sc
      | none => (getU s.users k).screens := by
  by_cases hk : k = canonicalKey e
  · subst hk
    rw [getU_step_self]
    unfold stepUser
    rw [applyBranch_screens, scrUpd_screens, sessUpd_screens, bump_screens]
    simp
  · rw [getU_step_ne s e k hk]
    have hno : ¬ (canonicalKey e = k ∧ etv e = some cScreenEvent) :=
      fun hc => hk hc.1.symm
    simp [hno]

theorem step_users_fst (s : St) (e : Event) :
    (step s e).users.map Prod.fst = addNewK (s.users.map Prod.fst) (canonicalKey e) := by
  show (setU s.users (canonicalKey e) (stepUser s e)).map Prod.fst = _
  exact setU_map_fst _ _ _

/-! ## Window-lookup lemmas -/

theorem lookupW_cons (p : String × Win) (ws : List (String × Win)) (sid : String) :
    lookupW (p :: ws) sid = if p.1 = sid then some p.2 else lookupW ws sid := by
  by_cases hp : p.1 = sid <;> simp [lookupW, List.find?, hp]

theorem lookupW_addWin_self (ws : List (String × Win)) (sid : String) (t : ℚ) :
    lookupW (addWin ws sid t) sid = widenO (lookupW ws sid) t := by
  unfold addWin
  split
  case isTrue h =>
    induction ws with
    | nil => simp at h
    | cons p ws ih =>
      by_cases hp : p.1 = sid
      · simp only [List.map_cons, if_pos hp]
        rw [lookupW_cons, lookupW_cons]
        simp [hp, widenO]
      · have ht : ws.any (fun p => decide (p.1 = sid)) = true := by
          simpa [List.any_cons, hp] using h
        simp only [List.map_cons, if_neg hp]
        rw [lookupW_cons, lookupW_cons, if_neg hp, if_neg hp]
        exact ih ht
  case isFalse h =>
    have h' : ws.any (fun p => decide (p.1 = sid)) = false :=
      Bool.eq_false_iff.mpr h
    clear h
    induction ws with
    | nil =>
      rw [List.nil_append, lookupW_cons, if_pos rfl]
      rfl
    | cons p ws ih =>
      have hp : ¬ p.1 = sid := by
        intro hc
        simp [List.any_cons, hc] at h'
      have ht : ws.any (fun p => decide (p.1 = sid)) = false := by
        simpa [List.any_cons, hp] using h'
      rw [List.cons_append, lookupW_cons, lookupW_cons, if_neg hp, if_neg hp]
      exact ih ht

theorem lookupW_map_widen_ne (ws : List (String × Win)) (sid' sid : String) (t : ℚ)
    (h : sid' ≠ sid) :
    lookupW (ws.map (fun p => if p.1 = sid' then (p.1, widen p.2 t) else p)) sid =
      lookupW ws sid := by
  induction ws with
  | nil => rfl
  | cons p ws ih =>
    by_cases hp : p.1 = sid'
    · simp only [List.map_cons, if_pos hp]
      rw [lookupW_cons, lookupW_cons]
      have h2 : ¬ (p.1 = sid) := fun hc => h (hp.symm.trans hc)
      rw [if_neg h2, if_neg h2]
      exact ih
    · simp only [List.map_cons, if_neg hp]
      rw [lookupW_cons, lookupW_cons]
      by_cases hq : p.1 = sid
      · rw [if_pos hq, if_pos hq]
      · rw [if_neg hq, if_neg hq]
        exact ih

theorem lookupW_append_ne (ws : List (String × Win)) (sid' sid : String) (t : ℚ)
    (h : sid' ≠ sid) :
    lookupW (ws ++ [(sid', ⟨t, t⟩)]) sid = lookupW ws sid := by
  induction ws with
  | nil =>
    rw [List.nil_append, lookupW_cons, if_neg h]
  | cons p ws ih =>
    rw [List.cons_append, lookupW_cons, lookupW_cons]
    by_cases hq : p.1 = sid
    · rw [if_pos hq, if_pos hq]
    · rw [if_neg hq, if_neg hq]
      exact ih

theorem lookupW_addWin_ne (ws : List (String × Win)) (sid' sid : String) (t : ℚ)
    (h : sid' ≠ sid) :
    lookupW (addWin ws sid' t) sid = lookupW ws sid := by
  unfold addWin
  split
  case isTrue _ => exact lookupW_map_widen_ne ws sid' sid t h
  case isFalse _ => exact lookupW_append_ne ws sid' sid t h

theorem step_win (s : St) (e : Event) (k : Key) (sid : String) :
    winOf (step s e) k sid =
      match (if canonicalKey e = k ∧ sidVal e = some sid
              then parseTime e.event_time else none) with
      | some t => widenO (winOf s k sid) t
      | none => winOf s k sid := by
  unfold winOf
  by_cases hk : k = canonicalKey e
  · subst hk
    rw [step_wins, if_pos rfl]
    rcases hs : sidVal e with _ | sid1
    · simp [hs]
    · rcases hp : parseTime e.event_time with _ | t
      · by_cases hsid : sid1 = sid <;> simp [hs, hp, hsid]
      · by_cases hsid : sid1 = sid
        · subst hsid
          rw [lookupW_addWin_self]
          simp [hp]
        · rw [lookupW_addWin_ne _ _ _ _ hsid]
          have hno : ¬ (some sid1 = some sid) := fun hc => hsid (Option.some.inj hc)
          simp [hno]
  · rw [step_wins, if_neg hk]
    have hno : ¬ (canonicalKey e = k ∧ sidVal e = some sid) := fun hc => hk hc.1.symm
    simp [hno]

theorem step_sid_mem (s : St) (e : Event) (k : Key) (sid : String) :
    sid ∈ (getU (step s e).users k).session_ids ↔
      (sid ∈ (getU s.users k).session_ids ∨
        (canonicalKey e = k ∧ sidVal e = some sid ∧ (parseTime e.event_time).isSome)) := by
  rw [step_sids]
  by_cases hk : k = canonicalKey e
  · subst hk
    rw [if_pos rfl]
    rcases hs : sidVal e with _ | sid1
    · simp [hs]
    · rcases hp : parseTime e.event_time with _ | t
      · simp [hs, hp]
      · by_cases hsid : sid1 = sid
        · subst hsid
          simp [hs, hp, Finset.mem_insert]
        · have hno : ¬ (some sid1 = some sid) := fun hc => hsid (Option.some.inj hc)
          have hno2 : ¬ (sid = sid1) := fun hc => hsid hc.symm
          simp [hs, hp, Finset.mem_insert, hsid, hno, hno2]
  · rw [if_neg hk]
    have hno : ¬ (canonicalKey e = k) := fun hc => hk hc.symm
    simp [hno]

/-! ## Fold-level characterizations -/

theorem foldSt_cons (s : St) (e : Event) (es : List Event) :
    foldSt s (e :: es) = foldSt (step s e) es := rfl

theorem foldSt_append (s : St) (l1 l2 : List Event) :
    foldSt s (l1 ++ l2) = foldSt (foldSt s l1) l2 :=
  List.foldl_append _ _ _ _

theorem foldSt_bucket_mem (es : List Event) (s : St) (bk : Bucket) (k : Key) :
    k ∈ (foldSt s es).buckets bk ↔
      (k ∈ s.buckets bk ∨ ∃ e ∈ es, canonicalKey e = k ∧ hits bk e = true) := by
  induction es generalizing s with
  | nil => simp [foldSt]
  | cons e es ih =>
    rw [foldSt_cons, ih, step_buckets]
    by_cases h : hits bk e = true
    · rw [if_pos h]
      constructor
      · rintro (hmem | ⟨e', he', hp⟩)
        · rcases Finset.mem_insert.mp hmem with hke | hsb
          · exact Or.inr ⟨e, List.mem_cons_self e es, hke.symm, h⟩
          · exact Or.inl hsb
        · exact Or.inr ⟨e', List.mem_cons_of_mem e he', hp⟩
      · rintro (hsb | ⟨e', he', hkey, hhits⟩)
        · exact Or.inl (Finset.mem_insert_of_mem hsb)
        · rcases List.mem_cons.mp he' with rfl | hmem
          · exact Or.inl (hkey ▸ Finset.mem_insert_self _ _)
          · exact Or.inr ⟨e', hmem, hkey, hhits⟩
    · rw [if_neg h]
      constructor
      · rintro (hsb | ⟨e', he', hp⟩)
        · exact Or.inl hsb
        · exact Or.inr ⟨e', List.mem_cons_of_mem e he', hp⟩
      · rintro (hsb | ⟨e', he', hkey, hhits⟩)
        · exact Or.inl hsb
        · rcases List.mem_cons.mp he' with rfl | hmem
          · exact absurd hhits h
          · exact Or.inr ⟨e', hmem, hkey, hhits⟩

theorem foldSt_flag (es : List Event) (s : St) (k : Key) (f : UFlag) :
    uflag f (getU (foldSt s es).users k) =
      (uflag f (getU s.users k) ||
        es.any (fun e => decide (canonicalKey e = k) && flagHit f e)) := by
  induction es generalizing s with
  | nil => simp [foldSt]
  | cons e es ih =>
    rw [foldSt_cons, ih, step_flag]
    simp [List.any_cons, Bool.or_assoc]

theorem foldSt_cnt (es : List Event) (s : St) (k : Key) (c : UCnt) :
    ucnt c (getU (foldSt s es).users k) =
      ucnt c (getU s.users k) +
        es.countP (fun e => decide (canonicalKey e = k) && cntHit c e) := by
  induction es generalizing s with
  | nil => simp [foldSt]
  | cons e es ih =>
    rw [foldSt_cons, ih, step_cnt]
    simp only [List.countP_cons]
    cases hpe : decide (canonicalKey e = k) && cntHit c e <;> simp [hpe] <;> omega

theorem foldSt_raw (es : List Event) (s : St) (x : Option String) :
    (foldSt s es).rawCounts x =
      s.rawCounts x + es.countP (fun e => decide (etv e = x)) := by
  induction es generalizing s with
  | nil => simp [foldSt]
  | cons e es ih =>
    rw [foldSt_cons, ih, step_raw]
    simp only [List.countP_cons]
    by_cases hpe : x = etv e
    · simp [hpe] ; omega
    · have hno : ¬ (etv e = x) := fun hc => hpe hc.symm
      simp [hpe, hno]

theorem sessTimesL_cons (e : Event) (es : List Event) (k : Key) (sid : String) :
    sessTimesL (e :: es) k sid =
      match (if canonicalKey e = k ∧ sidVal e = some sid
              then parseTime e.event_time else none) with
      | some t => t :: sessTimesL es k sid
      | none => sessTimesL es k sid := by
  rcases hc : (if canonicalKey e = k ∧ sidVal e = some sid
      then parseTime e.event_time else none) with _ | t <;>
    simp [sessTimesL, List.filterMap_cons, hc]

theorem foldSt_win (es : List Event) (s : St) (k : Key) (sid : String) :
    winOf (foldSt s es) k sid =
      (sessTimesL es k sid).foldl widenO (winOf s k sid) := by
  induction es generalizing s with
  | nil => rfl
  | cons e es ih =>
    rw [foldSt_cons, ih, sessTimesL_cons, step_win]
    rcases hc : (if canonicalKey e = k ∧ sidVal e = some sid
        then parseTime e.event_time else none) with _ | t <;> simp

theorem foldSt_sid_mem (es : List Event) (s : St) (k : Key) (sid : String) :
    sid ∈ (getU (foldSt s es).users k).session_ids ↔
      (sid ∈ (getU s.users k).session_ids ∨
        ∃ e ∈ es, canonicalKey e = k ∧ sidVal e = some sid ∧
          (parseTime e.event_time).isSome) := by
  induction es generalizing s with
  | nil => simp [foldSt]
  | cons e es ih =>
    rw [foldSt_cons, ih]
    constructor
    · rintro (hmem | ⟨e', he', hp⟩)
      · rcases (step_sid_mem s e k sid).mp hmem with hold | hnew
        · exact Or.inl hold
        · exact Or.inr ⟨e, List.mem_cons_self e es, hnew⟩
      · exact Or.inr ⟨e', List.mem_cons_of_mem e he', hp⟩
    · rintro (hold | ⟨e', he', hp⟩)
      · exact Or.inl ((step_sid_mem s e k sid).mpr (Or.inl hold))
      · rcases List.mem_cons.mp he' with rfl | hmem
        · exact Or.inl ((step_sid_mem s e' k sid).mpr (Or.inr hp))
        · exact Or.inr ⟨e', hmem, hp⟩

theorem scrList_cons (e : Event) (es : List Event) (k : Key) :
    scrList (e :: es) k =
      match (if canonicalKey e = k ∧ etv e = some cScreenEvent
              then screenVal e else none) with
      | some sc => sc :: scrList es k
      | none => scrList es k := by
  rcases hc : (if canonicalKey e = k ∧ etv e = some cScreenEvent
      then screenVal e else none) with _ | sc <;>
    simp [scrList, List.filterMap_cons, hc]

theorem foldSt_screens (es : List Event) (s : St) (k : Key) :
    (getU (foldSt s es).users k).screens =
      (scrList es k).foldl addNew (getU s.users k).screens := by
  induction es generalizing s with
  | nil => rfl
  | cons e es ih =>
    rw [foldSt_cons, ih, scrList_cons, step_screens]
    rcases hc : (if canonicalKey e = k ∧ etv e = some cScreenEvent
        then screenVal e else none) with _ | sc <;> simp

theorem foldSt_keys (es : List Event) (s : St) :
    (foldSt s es).users.map Prod.fst =
      es.foldl (fun acc e => addNewK acc (canonicalKey e)) (s.users.map Prod.fst) := by
  induction es generalizing s with
  | nil => rfl
  | cons e es ih =>
    rw [foldSt_cons, ih, step_users_fst]
    rfl

/-! ## Specializations to the initial state -/

theorem uflag_default (f : UFlag) : uflag f defaultUser = false := by
  cases f <;> rfl

theorem ucnt_default (c : UCnt) : ucnt c defaultUser = 0 := by
  cases c <;> rfl

theorem getU_init (k : Key) : getU initSt.users k = defaultUser := rfl

theorem procSt_bucket_mem (es : List Event) (bk : Bucket) (k : Key) :
    k ∈ (procSt es).buckets bk ↔ ∃ e ∈ es, canonicalKey e = k ∧ hits bk e = true := by
  have h := foldSt_bucket_mem es initSt bk k
  simpa [initSt] using h

theorem procSt_flag (es : List Event) (k : Key) (f : UFlag) :
    uflag f (getU (procSt es).users k) =
      es.any (fun e => decide (canonicalKey e = k) && flagHit f e) := by
  have h := foldSt_flag es initSt k f
  simpa [getU_init, uflag_default] using h

theorem procSt_cnt (es : List Event) (k : Key) (c : UCnt) :
    ucnt c (getU (procSt es).users k) =
      es.countP (fun e => decide (canonicalKey e = k) && cntHit c e) := by
  have h := foldSt_cnt es initSt k c
  simpa [getU_init, ucnt_default] using h

theorem procSt_raw (es : List Event) (x : Option String) :
    (procSt es).rawCounts x = es.countP (fun e => decide (etv e = x)) := by
  have h := foldSt_raw es initSt x
  simpa [initSt] using h

theorem procSt_win (es : List Event) (k : Key) (sid : String) :
    winOf (procSt es) k sid = (sessTimesL es k sid).foldl widenO none := by
  have h := foldSt_win es initSt k sid
  simpa [winOf, getU_init, defaultUser, lookupW] using h

theorem procSt_sid_mem (es : List Event) (k : Key) (sid : String) :
    sid ∈ (getU (procSt es).users k).session_ids ↔
      ∃ e ∈ es, canonicalKey e = k ∧ sidVal e = some sid ∧
        (parseTime e.event_time).isSome := by
  have h := foldSt_sid_mem es initSt k sid
  simpa [getU_init, defaultUser] using h

theorem procSt_screens (es : List Event) (k : Key) :
    (getU (procSt es).users k).screens = (scrList es k).foldl addNew [] := by
  have h := foldSt_screens es initSt k
  simpa [getU_init, defaultUser] using h

theorem procSt_keys (es : List Event) :
    (procSt es).users.map Prod.fst = keysOrder es := by
  have h := foldSt_keys es initSt
  simpa [initSt, keysOrder] using h

/-! ## Nodup of the users table keys -/

theorem addNewK_nodup (acc : List Key) (k : Key) (h : acc.Nodup) :
    (addNewK acc k).Nodup := by
  unfold addNewK
  split
  case isTrue _ => exact h
  case isFalse hmem =>
    rw [List.nodup_append]
    exact ⟨h, List.nodup_singleton k, by simpa [List.disjoint_left] using hmem⟩

theorem foldl_addNewK_nodup (es : List Event) (acc : List Key) (h : acc.Nodup) :
    (es.foldl (fun acc e => addNewK acc (canonicalKey e)) acc).Nodup := by
  induction es generalizing acc with
  | nil => exact h
  | cons e es ih => exact ih _ (addNewK_nodup _ _ h)

theorem procSt_keys_nodup (es : List Event) :
    ((procSt es).users.map Prod.fst).Nodup := by
  rw [procSt_keys]
  exact foldl_addNewK_nodup es [] List.nodup_nil

/-! ## Cohort-list projection -/

theorem mkRec_user_id (k : Key) (u : UserState) : (mkRec k u).user_id = k := rfl

theorem filterMap_cohort (us : List (Key × UserState))
    (h : (us.map Prod.fst).Nodup) :
    (us.filterMap (fun p => if p.2.signed_up then some (mkRec p.1 p.2) else none)).map
        (fun r => r.user_id)
      = (us.map Prod.fst).filter (fun k => (getU us k).signed_up) := by
  induction us with
  | nil => rfl
  | cons p us ih =>
    have hnd : (us.map Prod.fst).Nodup := (List.nodup_cons.mp h).2
    have hp : p.1 ∉ us.map Prod.fst := (List.nodup_cons.mp h).1
    have hgU : getU (p :: us) p.1 = p.2 := by
      rw [getU_cons, if_pos rfl]
    have hcong : (us.map Prod.fst).filter (fun k => (getU (p :: us) k).signed_up)
        = (us.map Prod.fst).filter (fun k => (getU us k).signed_up) := by
      apply List.filter_congr
      intro k hk
      have hne : ¬ (p.1 = k) := fun hEq => hp (hEq ▸ hk)
      rw [getU_cons, if_neg hne]
    rw [List.filterMap_cons, List.map_cons, List.filter_cons]
    cases hsu : p.2.signed_up
    · simp only [hgU, hsu, Bool.false_eq_true, if_false]
      rw [ih hnd, ← hcong]
    · simp only [hgU, hsu, if_true, List.map_cons, mkRec_user_id]
      rw [ih hnd, ← hcong]

/-! ## Permutation transport for Bool.any -/

theorem perm_any (p : Event → Bool) {l l' : List Event} (h : l.Perm l') :
    l.any p = l'.any p := by
  induction h with
  | nil => rfl
  | cons x _ ih => simp [List.any_cons, ih]
  | swap x y l => simp [List.any_cons, Bool.or_left_comm]
  | trans _ _ ih1 ih2 => rw [ih1, ih2]

/-! ## Widening arithmetic -/

theorem widen_le (w : Win) (t : ℚ) (h : w.start ≤ w.stop) :
    (widen w t).start ≤ (widen w t).stop := by
  unfold widen
  dsimp only
  split
  · split
    · exact le_refl t
    · exact le_trans (le_of_lt (by assumption)) h
  · split
    · exact le_trans h (le_of_lt (by assumption))
    · exact h

theorem widen_minmax (w : Win) (t : ℚ) :
    widen w t = ⟨min w.start t, max w.stop t⟩ := by
  unfold widen
  congr 1
  · rcases lt_or_ge t w.start with h | h
    · rw [if_pos h, min_eq_right (le_of_lt h)]
    · rw [if_neg (not_lt.mpr h), min_eq_left h]
  · rcases lt_or_ge w.stop t with h | h
    · rw [if_pos h, max_eq_right (le_of_lt h)]
    · rw [if_neg (not_lt.mpr h), max_eq_left h]

theorem widenO_fold_le (ts : List ℚ) (a : Option Win)
    (ha : ∀ w, a = some w → w.start ≤ w.stop) :
    ∀ w, ts.foldl widenO a = some w → w.start ≤ w.stop := by
  induction ts generalizing a with
  | nil => exact ha
  | cons t ts ih =>
    apply ih
    intro w hw
    rcases a with _ | w0
    · simp only [widenO] at hw
      cases hw
      exact le_refl t
    · simp only [widenO] at hw
      cases hw
      exact widen_le w0 t (ha w0 rfl)

/-! # Claim theorems -/

/-- C2: for every event record the canonical user key is resolved exactly as
the spec's precedence rule states (`canonicalKey`, translated from the source
expression, coincides with `specKey`, written from the spec's words); in
particular an event with `user_id="u1"` and `device_id="d1"` resolves to
`"u1"`, an event with neither field resolves to `"anonymous"`, and resolution
is a total function (it is a plain Lean function into `Key`). -/
theorem c2_identity_resolution :
    (∀ e : Event, canonicalKey e = specKey e) ∧
    canonicalKey ⟨OptField.str "u1", OptField.str "d1", OptField.absent,
      OptField.absent, "", none⟩ = some "u1" ∧
    canonicalKey ⟨OptField.absent, OptField.absent, OptField.absent,
      OptField.absent, "", none⟩ = some "anonymous" := by
  refine ⟨?_, rfl, rfl⟩
  intro e
  rcases hu : e.user_id with _ | _ | s
  · simp [canonicalKey, specKey, pyGet, hu]
  · simp [canonicalKey, specKey, pyGet, hu]
  · by_cases h : s = "" <;> simp [canonicalKey, specKey, pyGet, hu, h]

/-- C3: the safe-division law of the `pct` helper — a zero denominator renders
the em-dash sentinel, a positive denominator renders the rounded integer
percentage followed by a percent sign. -/
theorem c3_safe_division (num den : ℕ) :
    (den = 0 → pct num den = "—") ∧
    (den ≠ 0 →
      pct num den = toString (rhe ((num : ℚ) / (den : ℚ) * 100)) ++ "%") := by
  constructor
  · intro h
    simp [pct, h]
  · intro h
    simp [pct, Nat.pos_of_ne_zero h]

/-- Witness for C3 at the concrete inputs `3/0` and `1/8`. -/
theorem c3_safe_division_w :
    pct 3 0 = "—" ∧
    pct 1 8 = toString (rhe (((1 : ℕ) : ℚ) / ((8 : ℕ) : ℚ) * 100)) ++ "%" :=
  ⟨(c3_safe_division 3 0).1 rfl, (c3_safe_division 1 8).2 (by decide)⟩

/-- C8: the empty batch yields the all-zero report — fixed key set (the
`Report` structure), every scalar count 0, every rate `"—"`,
`avg_session_mins` 0.0, empty cohort list — and not an error. -/
theorem c8_empty_batch : processEvents [] = reportZero := rfl

/-! ## Division-safety lemmas for C9 -/

theorem pctE_ok (num den : ℕ) : pctE num den = Except.ok (pct num den) := by
  unfold pctE pct divE
  by_cases h : 0 < den
  · have hd : ¬ ((den : ℚ) = 0) := by
      simp only [Nat.cast_eq_zero]
      omega
    simp [h, hd, Bind.bind, Except.bind]
  · simp [h]

theorem calcSessionTimeE_ok (ws : List (String × Win)) :
    calcSessionTimeE ws = Except.ok (calcSessionTime ws) := by
  unfold calcSessionTimeE calcSessionTime divE
  have h60 : ¬ ((60 : ℚ) = 0) := by norm_num
  simp [h60, Bind.bind, Except.bind]

theorem mapM_calc (us : List (Key × UserState)) :
    us.mapM (fun p => calcSessionTimeE p.2.session_windows) =
      Except.ok (us.map (fun p => calcSessionTime p.2.session_windows)) := by
  induction us with
  | nil => rfl
  | cons p us ih =>
    rw [List.mapM_cons, calcSessionTimeE_ok, ih]
    rfl

theorem avgSessionE_ok (us : List (Key × UserState)) (dau : ℕ) :
    avgSessionE us dau = Except.ok (avgSession us dau) := by
  unfold avgSessionE avgSession divE
  by_cases h : dau = 0
  · simp [h]
  · have hd : ¬ ((dau : ℚ) = 0) := by
      simp only [Nat.cast_eq_zero]
      omega
    rw [if_neg h, if_neg h, mapM_calc]
    simp [hd, Bind.bind, Except.bind]

/-- C9: totality of the engine over the data-model event domain — with every
division instrumented as a possible `ZeroDivisionError`, `process_events`
always returns `ok` (the guards `den > 0` and `dau == 0` protect every
division), and the result is the pure report.  The `Event` type is the
data-model domain: optional/null identity and session fields, arbitrary
`event_time` string, optional properties mapping. -/
theorem c9_totality (es : List Event) :
    processEventsE es = Except.ok (processEvents es) := by
  unfold processEventsE processEvents buildReportE buildReport
  simp [pctE_ok, avgSessionE_ok, Bind.bind, Except.bind]

/-- C4: duplication idempotence — inserting a second copy of an event `e`
already present in the batch leaves every unique-user bucket (hence every
bucket size) unchanged and every per-user boolean flag unchanged, while the
raw tally of `e`'s event type and the event count of `e`'s user each grow by
exactly one. -/
theorem c4_duplication (l1 l2 : List Event) (e : Event) (h : e ∈ l1 ∨ e ∈ l2) :
    (∀ bk, (procSt (l1 ++ e :: l2)).buckets bk = (procSt (l1 ++ l2)).buckets bk) ∧
    (procSt (l1 ++ e :: l2)).rawCounts (etv e)
      = (procSt (l1 ++ l2)).rawCounts (etv e) + 1 ∧
    ucnt UCnt.event_count (getU (procSt (l1 ++ e :: l2)).users (canonicalKey e))
      = ucnt UCnt.event_count (getU (procSt (l1 ++ l2)).users (canonicalKey e)) + 1 ∧
    (∀ f k, uflag f (getU (procSt (l1 ++ e :: l2)).users k)
      = uflag f (getU (procSt (l1 ++ l2)).users k)) := by
  have hmem : e ∈ l1 ++ l2 := by
    rcases h with h | h
    · exact List.mem_append.mpr (Or.inl h)
    · exact List.mem_append.mpr (Or.inr h)
  refine ⟨?_, ?_, ?_, ?_⟩
  · intro bk
    ext k
    rw [procSt_bucket_mem, procSt_bucket_mem]
    constructor
    · rintro ⟨e', he', hp⟩
      rcases List.mem_append.mp he' with h1 | h2
      · exact ⟨e', List.mem_append.mpr (Or.inl h1), hp⟩
      · rcases List.mem_cons.mp h2 with rfl | h3
        · exact ⟨e', hmem, hp⟩
        · exact ⟨e', List.mem_append.mpr (Or.inr h3), hp⟩
    · rintro ⟨e', he', hp⟩
      rcases List.mem_append.mp he' with h1 | h2
      · exact ⟨e', List.mem_append.mpr (Or.inl h1), hp⟩
      · exact ⟨e', List.mem_append.mpr (Or.inr (List.mem_cons_of_mem e h2)), hp⟩
  · rw [procSt_raw, procSt_raw]
    simp only [List.countP_append, List.countP_cons, decide_True, Bool.and_true]
    simp
    omega
  · rw [procSt_cnt, procSt_cnt]
    simp only [List.countP_append, List.countP_cons]
    simp [cntHit]
    omega
  · intro f k
    rw [procSt_flag, procSt_flag]
    by_cases hpe : (decide (canonicalKey e = k) && flagHit f e) = true
    · have hany : (l1 ++ l2).any
          (fun e' => decide (canonicalKey e' = k) && flagHit f e') = true :=
        List.any_eq_true.mpr ⟨e, hmem, hpe⟩
      have hany2 : (l1 ++ e :: l2).any
          (fun e' => decide (canonicalKey e' = k) && flagHit f e') = true :=
        List.any_eq_true.mpr
          ⟨e, List.mem_append.mpr (Or.inr (List.mem_cons_self e l2)), hpe⟩
      rw [hany, hany2]
    · have hpe' : (decide (canonicalKey e = k) && flagHit f e) = false :=
        Bool.eq_false_iff.mpr hpe
      rw [List.any_append, List.any_append, List.any_cons, hpe']
      simp

/-- Witness for C4: duplicating the signup event of `lC4`. -/
theorem c4_duplication_w :
    (procSt (lC4 ++ eC4 :: [])).buckets Bucket.signup_completed
      = (procSt (lC4 ++ [])).buckets Bucket.signup_completed ∧
    (procSt (lC4 ++ eC4 :: [])).rawCounts (etv eC4)
      = (procSt (lC4 ++ [])).rawCounts (etv eC4) + 1 ∧
    ucnt UCnt.event_count (getU (procSt (lC4 ++ eC4 :: [])).users (canonicalKey eC4))
      = ucnt UCnt.event_count (getU (procSt (lC4 ++ [])).users (canonicalKey eC4)) + 1 ∧
    uflag UFlag.signed_up (getU (procSt (lC4 ++ eC4 :: [])).users (some "u1"))
      = uflag UFlag.signed_up (getU (procSt (lC4 ++ [])).users (some "u1")) := by
  have h := c4_duplication lC4 [] eC4 (Or.inl (by decide))
  exact ⟨h.1 Bucket.signup_completed, h.2.1, h.2.2.1,
    h.2.2.2 UFlag.signed_up (some "u1")⟩

/-- C5 counterexample: the claim says the displayed screen-list ordering
depends only on the event-time ordering of the user's screen-view events, not
on the input-array ordering.  `lC5` and `lC5'` are permutations of each other
carrying identical timestamps (so the event-time ordering of the screen views
is the same), yet the displayed screen lists differ — the code appends screens
in input order. -/
theorem c5_screen_order_cx :
    lC5.Perm lC5' ∧
    (processEvents lC5).new_signups.map (fun r => r.screens) = [["a", "b"]] ∧
    (processEvents lC5').new_signups.map (fun r => r.screens) = [["b", "a"]] := by
  refine ⟨?_, by decide, by decide⟩
  exact List.Perm.cons _ (List.Perm.swap _ _ _)

/-- C5 (amended): permuting the input yields identical bucket sets and sizes,
per-user flags, per-user counters, raw tallies, and `dau`; the displayed
screen list is the first-seen fold of the user's screen values in input
order (so it is sensitive to the input-array ordering, not to event times). -/
theorem c5_order_independence (l l' : List Event) (h : l.Perm l') :
    (∀ bk, (procSt l).buckets bk = (procSt l').buckets bk) ∧
    (∀ bk, ((procSt l).buckets bk).card = ((procSt l').buckets bk).card) ∧
    (∀ f k, uflag f (getU (procSt l).users k) = uflag f (getU (procSt l').users k)) ∧
    (∀ c k, ucnt c (getU (procSt l).users k) = ucnt c (getU (procSt l').users k)) ∧
    (∀ x, (procSt l).rawCounts x = (procSt l').rawCounts x) ∧
    (processEvents l).dau = (processEvents l').dau ∧
    (∀ k, (getU (procSt l).users k).screens = (scrList l k).foldl addNew []) := by
  have hbk : ∀ bk, (procSt l).buckets bk = (procSt l').buckets bk := by
    intro bk
    ext k
    rw [procSt_bucket_mem, procSt_bucket_mem]
    constructor
    · rintro ⟨e, he, hp⟩
      exact ⟨e, h.mem_iff.mp he, hp⟩
    · rintro ⟨e, he, hp⟩
      exact ⟨e, h.mem_iff.mpr he, hp⟩
  refine ⟨hbk, fun bk => by rw [hbk bk], ?_, ?_, ?_, ?_, ?_⟩
  · intro f k
    rw [procSt_flag, procSt_flag, perm_any _ h]
  · intro c k
    rw [procSt_cnt, procSt_cnt, h.countP_eq]
  · intro x
    rw [procSt_raw, procSt_raw, h.countP_eq]
  · show ((procSt l).buckets Bucket.all_active).card
      = ((procSt l').buckets Bucket.all_active).card
    rw [hbk]
  · intro k
    exact procSt_screens l k

/-- Witness for C5 (amended) at the concrete permutation pair `lC5`, `lC5'`. -/
theorem c5_order_independence_w :
    ((procSt lC5).buckets Bucket.all_active).card
      = ((procSt lC5').buckets Bucket.all_active).card ∧
    uflag UFlag.signed_up (getU (procSt lC5).users (some "u1"))
      = uflag UFlag.signed_up (getU (procSt lC5').users (some "u1")) ∧
    (getU (procSt lC5).users (some "u1")).screens
      = (scrList lC5 (some "u1")).foldl addNew [] := by
  have h := c5_order_independence lC5 lC5' (List.Perm.cons _ (List.Perm.swap _ _ _))
  exact ⟨h.2.1 Bucket.all_active, h.2.2.1 UFlag.signed_up (some "u1"),
    h.2.2.2.2.2.2 (some "u1")⟩

/-- C6: an event whose timestamp parses under neither format, or whose session
id is absent (falsy), is excluded from session-window tracking (windows and
session-id sets of every user unchanged) but still increments its user's
event count, still joins the `all_active` bucket and the raw tally, and is
still classified by the taxonomy: its bucket, flag and counter effects are
exactly the usual ones. -/
theorem c6_degraded_still_counted (s : St) (e : Event)
    (h : parseTime e.event_time = none ∨ sidVal e = none) :
    (∀ k, (getU (step s e).users k).session_windows
            = (getU s.users k).session_windows ∧
          (getU (step s e).users k).session_ids
            = (getU s.users k).session_ids) ∧
    ucnt UCnt.event_count (getU (step s e).users (canonicalKey e))
      = ucnt UCnt.event_count (getU s.users (canonicalKey e)) + 1 ∧
    canonicalKey e ∈ (step s e).buckets Bucket.all_active ∧
    (step s e).rawCounts (etv e) = s.rawCounts (etv e) + 1 ∧
    (∀ bk, (step s e).buckets bk =
      if hits bk e then insert (canonicalKey e) (s.buckets bk) else s.buckets bk) ∧
    (∀ f, uflag f (getU (step s e).users (canonicalKey e))
      = (uflag f (getU s.users (canonicalKey e)) || flagHit f e)) ∧
    (∀ c, ucnt c (getU (step s e).users (canonicalKey e))
      = ucnt c (getU s.users (canonicalKey e)) + (if cntHit c e then 1 else 0)) := by
  refine ⟨?_, ?_, ?_, ?_, ?_, ?_, ?_⟩
  · intro k
    constructor
    · rw [step_wins]
      by_cases hk : k = canonicalKey e
      · rw [if_pos hk]
        rcases h with h | h
        · rcases hs : sidVal e with _ | sid <;> simp [hs, h]
        · simp [h]
      · rw [if_neg hk]
    · rw [step_sids]
      by_cases hk : k = canonicalKey e
      · rw [if_pos hk]
        rcases h with h | h
        · rcases hs : sidVal e with _ | sid <;> simp [hs, h]
        · simp [h]
      · rw [if_neg hk]
  · rw [step_cnt]
    simp [cntHit]
  · rw [step_buckets]
    have hh : hits Bucket.all_active e = true := by simp [hits]
    rw [if_pos hh]
    exact Finset.mem_insert_self _ _
  · rw [step_raw]
    simp
  · exact step_buckets s e
  · intro f
    rw [step_flag]
    simp
  · intro c
    rw [step_cnt]
    simp

/-- Witness for C6 at the concrete degraded event `eC6` (recognized signup
type, session id present, unparsable timestamp) from the empty state. -/
theorem c6_degraded_still_counted_w :
    ((getU (step initSt eC6).users (some "u1")).session_windows
      = (getU initSt.users (some "u1")).session_windows) ∧
    canonicalKey eC6 ∈ (step initSt eC6).buckets Bucket.all_active ∧
    (uflag UFlag.signed_up (getU (step initSt eC6).users (canonicalKey eC6))
      = (uflag UFlag.signed_up (getU initSt.users (canonicalKey eC6))
          || flagHit UFlag.signed_up eC6)) ∧
    ucnt UCnt.event_count (getU (step initSt eC6).users (canonicalKey eC6))
      = ucnt UCnt.event_count (getU initSt.users (canonicalKey eC6)) + 1 := by
  have h := c6_degraded_still_counted initSt eC6 (Or.inl rfl)
  exact ⟨(h.1 (some "u1")).1, h.2.2.1, h.2.2.2.2.2.1 UFlag.signed_up, h.2.1⟩

/-- C7: session-window invariants — every stored window satisfies
`start ≤ end`; a session whose matching events contribute exactly one parsable
timestamp `t` has the window `[t, t]` (zero duration); and a later event of
the same user and session with parsable time `t` exactly widens the window to
`[min start t, max end t]`. -/
theorem c7_session_windows :
    (∀ (es : List Event) (k : Key) (sid : String) (w : Win),
        winOf (procSt es) k sid = some w → w.start ≤ w.stop) ∧
    (∀ (es : List Event) (k : Key) (sid : String) (t : ℚ),
        sessTimesL es k sid = [t] →
          winOf (procSt es) k sid = some ⟨t, t⟩ ∧ (t - t : ℚ) = 0) ∧
    (∀ (es : List Event) (e : Event) (k : Key) (sid : String) (t : ℚ) (w : Win),
        canonicalKey e = k → sidVal e = some sid →
        parseTime e.event_time = some t →
        winOf (procSt es) k sid = some w →
          winOf (procSt (es ++ [e])) k sid
            = some ⟨min w.start t, max w.stop t⟩) := by
  refine ⟨?_, ?_, ?_⟩
  · intro es k sid w hw
    rw [procSt_win] at hw
    exact widenO_fold_le _ none (fun w hw0 => by cases hw0) w hw
  · intro es k sid t ht
    rw [procSt_win, ht]
    exact ⟨rfl, sub_self t⟩
  · intro es e k sid t w hkey hsid hpt hw
    rw [procSt_win] at hw
    rw [procSt_win]
    have happ : sessTimesL (es ++ [e]) k sid = sessTimesL es k sid ++ [t] := by
      unfold sessTimesL
      rw [List.filterMap_append]
      congr 1
      simp [List.filterMap_cons, hkey, hsid, hpt]
    rw [happ, List.foldl_append, hw]
    show widenO (some w) t = _
    simp only [widenO]
    rw [widen_minmax]

/-- Witness for C7 at the two concrete same-session events `eC7a`, `eC7b`. -/
theorem c7_session_windows_w :
    winOf (procSt ([eC7a] ++ [eC7b])) (some "u1") "s1"
      = some ⟨min (timeVal 2025 3 15 10 0 0 0) (timeVal 2025 3 15 10 2 30 0),
              max (timeVal 2025 3 15 10 0 0 0) (timeVal 2025 3 15 10 2 30 0)⟩ ∧
    (timeVal 2025 3 15 10 0 0 0 : ℚ) ≤ timeVal 2025 3 15 10 0 0 0 := by
  have hb := c7_session_windows.2.1 [eC7a] (some "u1") "s1"
      (timeVal 2025 3 15 10 0 0 0) rfl
  have ha := c7_session_windows.1 [eC7a] (some "u1") "s1"
      ⟨timeVal 2025 3 15 10 0 0 0, timeVal 2025 3 15 10 0 0 0⟩ hb.1
  have hc := c7_session_windows.2.2 [eC7a] eC7b (some "u1") "s1"
      (timeVal 2025 3 15 10 2 30 0)
      ⟨timeVal 2025 3 15 10 0 0 0, timeVal 2025 3 15 10 0 0 0⟩
      rfl rfl rfl hb.1
  exact ⟨hc, ha⟩

/-- C10: a session id carried by an event whose timestamp parses under neither
format is not added to the user's session set (the whole session-id state is
unchanged by such an event); on the concrete batch `lC10` the cohort's
`session_count` is 1 while the events of that user carry 2 distinct session
ids. -/
theorem c10_session_count_parsable :
    (∀ (s : St) (e : Event), parseTime e.event_time = none →
        ∀ k, (getU (step s e).users k).session_ids
          = (getU s.users k).session_ids) ∧
    (processEvents lC10).new_signups.map (fun r => r.session_count) = [1] ∧
    ((lC10.filterMap (fun e => sidVal e)).foldl addNew []).length = 2 := by
  refine ⟨?_, by decide, by decide⟩
  intro s e h k
  rw [step_sids]
  by_cases hk : k = canonicalKey e
  · rw [if_pos hk]
    rcases hs : sidVal e with _ | sid <;> simp [hs, h]
  · rw [if_neg hk]

/-- Witness for C10 at the concrete unparsable-timestamp event `eC10bad`. -/
theorem c10_session_count_parsable_w :
    (getU (step initSt eC10bad).users (some "u1")).session_ids
      = (getU initSt.users (some "u1")).session_ids :=
  c10_session_count_parsable.1 initSt eC10bad rfl (some "u1")

/-- C1 counterexample: the claim says the cohort list is sorted by canonical
user key ascending.  On `lC1` (user `"b"` signs up before user `"a"`) the
cohort user-id sequence is `[b, a]`, which is not ascending — the code emits
the cohort in users-dict insertion order and never sorts. -/
theorem c1_cohort_not_sorted :
    (processEvents lC1).new_signups.map (fun r => r.user_id)
      = [some "b", some "a"] ∧
    sortedByKey ((processEvents lC1).new_signups.map (fun r => r.user_id))
      = false := by
  constructor
  · decide
  · decide

/-- C1 (amended): the cohort list order is deterministic but is the first-seen
input order of the user keys, restricted to users with a signup-completed
event — not sorted by key. -/
theorem c1_cohort_order (es : List Event) :
    (processEvents es).new_signups.map (fun r => r.user_id) =
      (keysOrder es).filter
        (fun k => es.any
          (fun e => decide (canonicalKey e = k) && flagHit UFlag.signed_up e)) := by
  have h1 : (processEvents es).new_signups =
      (procSt es).users.filterMap
        (fun p => if p.2.signed_up then some (mkRec p.1 p.2) else none) := rfl
  rw [h1, filterMap_cohort _ (procSt_keys_nodup es), procSt_keys]
  apply List.filter_congr
  intro k hk
  have h2 := procSt_flag es k UFlag.signed_up
  simpa [uflag] using h2
